import Mathlib

/-!
Verification of the velocity/behavior tracking layer and rule-based decision
engine of the fraud-detection service (src/fraud_api.py).

Modelling conventions:
* Python floats (amounts, risk scores, thresholds) are modelled as rationals.
  All properties checked here are order comparisons and exact small arithmetic.
* Unix timestamps from time.time() are modelled as integers.
* A Redis sorted set is modelled as an association list from member to score.
  ZADD on an existing member replaces its score (members are unique); the real
  structure orders entries by score, but every observation made by the code
  (ZCARD, sums over ZRANGE, membership) is order-insensitive.
* Key-level TTLs set by r.expire on the velocity keys are not modelled: the
  TTL equals the window length, so whole-key expiry only ever drops entries
  that zremrangebyscore would drop at the next touch anyway, and the code only
  observes the sets immediately after such a purge.
-/

namespace FraudApi

/-- A Redis sorted set: an association list of members with integer scores.
Members are kept unique by construction (see zadd). -/
abbrev ZSet (α : Type) := List (α × Int)

/-- ZADD key {member: score} — inserts the member or replaces its score. -/
def zadd {α : Type} [DecidableEq α] (s : ZSet α) (member : α) (score : Int) : ZSet α :=
  s.filter (fun p => p.1 ≠ member) ++ [(member, score)]

/-- ZREMRANGEBYSCORE key lo hi — removes entries whose score lies in [lo, hi]. -/
def zremrangebyscore {α : Type} (s : ZSet α) (lo hi : Int) : ZSet α :=
  s.filter (fun p => ¬ (lo ≤ p.2 ∧ p.2 ≤ hi))

/-- ZCARD key — number of members. -/
def zcard {α : Type} (s : ZSet α) : Nat := s.length

/-- WINDOW_SECONDS = 600 (10 minutes), the module-level constant used by
update_velocity and get_and_update_country. -/
def WINDOW_SECONDS : Int := 600

/-- The per-user slice of the Redis store touched by the transaction path:
the sorted sets txn:{user_id} and amt:{user_id}, and the string key
last_country:{user_id} together with its absolute expiry time (from SETEX). -/
structure UserState where
  txn : ZSet Int
  amt : ZSet ℚ
  lastCountry : Option (String × Int)
deriving DecidableEq

/-- State of a user key the service has never touched. -/
def emptyUserState : UserState := { txn := [], amt := [], lastCountry := none }

/-- GET on a key written with SETEX: returns the value while it has not yet
expired, and nothing once the TTL has elapsed or if it was never set. -/
def redis_get (v : Option (String × Int)) (now : Int) : Option String :=
  match v with
  | none => none
  | some (c, expiry) => if now < expiry then some c else none

/-- update_velocity(user_id, amount) from src/fraud_api.py.

ZADDs the current timestamp into txn:{user} (member and score are both the
timestamp) and the amount into amt:{user} (member is the amount, score the
timestamp), prunes both sets by score up to now - WINDOW_SECONDS, and returns
the surviving transaction count and the sum of the surviving amount members. -/
def update_velocity (st : UserState) (amount : ℚ) (now : Int) : UserState × Nat × ℚ :=
  let txn1 := zadd st.txn now now
  let amt1 := zadd st.amt amount now
  let cutoff := now - WINDOW_SECONDS
  let txn2 := zremrangebyscore txn1 0 cutoff
  let amt2 := zremrangebyscore amt1 0 cutoff
  ({ txn := txn2, amt := amt2, lastCountry := st.lastCountry },
   zcard txn2,
   ((amt2.map Prod.fst).sum))

/-- get_and_update_country(user_id, country) from src/fraud_api.py.

Reads last_country:{user} (falling back to the incoming country when the key
is absent or expired — Python's `r.get(key) or country`), then SETEXes the
incoming country with a fresh WINDOW_SECONDS TTL. -/
def get_and_update_country (st : UserState) (country : String) (now : Int) :
    UserState × String :=
  let last_country := (redis_get st.lastCountry now).getD country
  ({ st with lastCountry := some (country, now + WINDOW_SECONDS) }, last_country)

/-- The TransactionRequest pydantic model; the four required fields, plus the
optional timestamp reduced to the only thing the core reads from it: its local
hour (predict only uses txn.timestamp via txn_time.hour in build_features).
The remaining optional enrichment fields are only forwarded to the audit log
and never influence velocity, geo, features or the decision, so they are not
modelled. -/
structure TransactionRequest where
  user_id : String
  transaction_id : String
  amount : ℚ
  country : String
  timestampHour : Option Nat
deriving DecidableEq

/-- The feature row assembled by build_features (one-row DataFrame). -/
structure Features where
  amount : ℚ
  amount_vs_avg : ℚ
  time_diff_sec : ℚ
  txn_count_10min : Nat
  amt_sum_10min : ℚ
  is_midnight_txn : Nat
  is_new_country : Nat
deriving DecidableEq

/-- build_features(txn, txn_count, amt_sum, last_country, txn_time) from
src/fraud_api.py. `hour` is the local hour of the effective txn_time. Note the
baseline is the local constant user_avg_amount = 1500, not a config field. -/
def build_features (txn : TransactionRequest) (txn_count : Nat) (amt_sum : ℚ)
    (last_country : String) (hour : Nat) : Features :=
  let user_avg_amount : ℚ := 1500
  let amount_vs_avg := txn.amount / max user_avg_amount 1
  { amount := txn.amount
    amount_vs_avg := min amount_vs_avg 20
    time_diff_sec := 0
    txn_count_10min := txn_count
    amt_sum_10min := amt_sum
    is_midnight_txn := if hour ≤ 4 then 1 else 0
    is_new_country := if txn.country ≠ last_country then 1 else 0 }

/-- The nested enabled_checks dictionary of the configuration. -/
structure Checks where
  velocity : Bool
  geo_location : Bool
  amount_spike : Bool
  midnight : Bool
  ml_risk_score : Bool
  anomaly_detection : Bool
deriving DecidableEq

/-- A partial update of enabled_checks: the keys present in the request body
(dict.update merges them key by key). -/
structure ChecksUpdate where
  velocity : Option Bool := none
  geo_location : Option Bool := none
  amount_spike : Option Bool := none
  midnight : Option Bool := none
  ml_risk_score : Option Bool := none
  anomaly_detection : Option Bool := none
deriving DecidableEq

/-- dict.update on the enabled_checks dictionary: keys present in the update
overwrite, absent keys keep their value. -/
def Checks.update (c : Checks) (u : ChecksUpdate) : Checks :=
  { velocity := u.velocity.getD c.velocity
    geo_location := u.geo_location.getD c.geo_location
    amount_spike := u.amount_spike.getD c.amount_spike
    midnight := u.midnight.getD c.midnight
    ml_risk_score := u.ml_risk_score.getD c.ml_risk_score
    anomaly_detection := u.anomaly_detection.getD c.anomaly_detection }

/-- Heap address of a Python dict object, used to model the aliasing between
CURRENT_CONFIG["enabled_checks"] and its shallow copies. -/
abbrev Addr := Nat

/-- The top-level CURRENT_CONFIG dict: scalar entries hold their values, the
enabled_checks entry holds a reference to a nested dict object. -/
structure TopConfig where
  velocity_threshold : Int
  velocity_window : Int
  high_risk_threshold : ℚ
  flag_risk_threshold : ℚ
  amount_spike_multiplier : ℚ
  anomaly_score_threshold : ℚ
  baseline_amount : ℚ
  midnight_hours : List Nat
  enabled_checks : Addr
deriving DecidableEq

/-- The part of the Python heap relevant to the config: the current top-level
dict plus the store of nested enabled_checks dict objects. -/
structure ConfigState where
  top : TopConfig
  heap : List (Addr × Checks)
deriving DecidableEq

/-- Dereference an enabled_checks address. Well-formed states always contain
the address; the fallback (all checks on, as in DEFAULT_CONFIG) is never hit
by states built in this file. -/
def heapGet (h : List (Addr × Checks)) (a : Addr) : Checks :=
  (h.lookup a).getD ⟨true, true, true, true, true, true⟩

/-- In-place mutation of the dict object at an address. -/
def heapSet (h : List (Addr × Checks)) (a : Addr) (c : Checks) : List (Addr × Checks) :=
  h.map (fun p => if p.1 = a then (a, c) else p)

/-- A configuration as observed by readers (json.dumps of the dict): all
scalar fields plus the fully dereferenced enabled_checks mapping. -/
structure ResolvedConfig where
  velocity_threshold : Int
  velocity_window : Int
  high_risk_threshold : ℚ
  flag_risk_threshold : ℚ
  amount_spike_multiplier : ℚ
  anomaly_score_threshold : ℚ
  baseline_amount : ℚ
  midnight_hours : List Nat
  enabled_checks : Checks
deriving DecidableEq

/-- Read a config value through the heap (what json.dumps serializes). -/
def resolve (h : List (Addr × Checks)) (t : TopConfig) : ResolvedConfig :=
  { velocity_threshold := t.velocity_threshold
    velocity_window := t.velocity_window
    high_risk_threshold := t.high_risk_threshold
    flag_risk_threshold := t.flag_risk_threshold
    amount_spike_multiplier := t.amount_spike_multiplier
    anomaly_score_threshold := t.anomaly_score_threshold
    baseline_amount := t.baseline_amount
    midnight_hours := t.midnight_hours
    enabled_checks := heapGet h t.enabled_checks }

/-- DEFAULT_CONFIG from src/fraud_api.py (0.9, 0.8 and 0.03 written as
rationals), with its enabled_checks dict living at heap address 0. -/
def DEFAULT_CONFIG_STATE : ConfigState :=
  { top :=
      { velocity_threshold := 3
        velocity_window := 600
        high_risk_threshold := 9 / 10
        flag_risk_threshold := 8 / 10
        amount_spike_multiplier := 3
        anomaly_score_threshold := 3 / 100
        baseline_amount := 1500
        midnight_hours := [0, 1, 2, 3, 4]
        enabled_checks := 0 }
    heap := [(0, ⟨true, true, true, true, true, true⟩)] }

/-- The default configuration as readers observe it. -/
def DEFAULT_CONFIG : ResolvedConfig :=
  resolve DEFAULT_CONFIG_STATE.heap DEFAULT_CONFIG_STATE.top

/-- The ConfigUpdate pydantic model: optional fields; absent (unset/None)
fields are skipped by the merge loop. (midnight_hours is not updatable.) -/
structure ConfigUpdate where
  velocity_threshold : Option Int := none
  velocity_window : Option Int := none
  high_risk_threshold : Option ℚ := none
  flag_risk_threshold : Option ℚ := none
  amount_spike_multiplier : Option ℚ := none
  anomaly_score_threshold : Option ℚ := none
  baseline_amount : Option ℚ := none
  enabled_checks : Option ChecksUpdate := none
deriving DecidableEq

/-- update_config from src/fraud_api.py (the body after authorization).

old_config := CURRENT_CONFIG.copy() is a SHALLOW copy: the top-level entries
are copied but the enabled_checks entry still references the same nested dict
object. Provided scalar fields overwrite; a provided (non-empty) enabled_checks
dict is merged into the shared nested dict IN PLACE. log_admin_action then
serializes old_config — reading the nested dict through the shared address
AFTER the mutation — and the endpoint returns the same old_config alongside
the new config. Returns (new state, logged/returned old config, new config).
(The degenerate case of an explicitly empty enabled_checks dict, which Python's
truthiness test routes to the scalar branch, is not modelled: it cannot be
expressed through this model's ChecksUpdate and no claim exercises it.) -/
def update_config (st : ConfigState) (u : ConfigUpdate) :
    ConfigState × ResolvedConfig × ResolvedConfig :=
  let old_config := st.top
  let top' : TopConfig :=
    { st.top with
      velocity_threshold := u.velocity_threshold.getD st.top.velocity_threshold
      velocity_window := u.velocity_window.getD st.top.velocity_window
      high_risk_threshold := u.high_risk_threshold.getD st.top.high_risk_threshold
      flag_risk_threshold := u.flag_risk_threshold.getD st.top.flag_risk_threshold
      amount_spike_multiplier := u.amount_spike_multiplier.getD st.top.amount_spike_multiplier
      anomaly_score_threshold := u.anomaly_score_threshold.getD st.top.anomaly_score_threshold
      baseline_amount := u.baseline_amount.getD st.top.baseline_amount }
  let heap' :=
    match u.enabled_checks with
    | some cu =>
        heapSet st.heap st.top.enabled_checks
          ((heapGet st.heap st.top.enabled_checks).update cu)
    | none => st.heap
  (⟨top', heap'⟩, resolve heap' old_config, resolve heap' top')

/-- The three dispositions. -/
inductive Action where
  | ALLOW
  | FLAG
  | BLOCK
deriving DecidableEq

/-- The reason strings appended by predict, as tags:
high_velocity   = "High transaction velocity (>=threshold in windows)"
risk_with_spike = "High fraud risk with sudden amount spike"
new_country     = "Transaction from a new country"
large_amount    = "Sudden large amount compared to baseline"
midnight        = "Transaction during unusual hours (midnight)"
anomaly         = "Unusual behavior detected by anomaly model"
fraud_pattern   = "Matches known fraud patterns"
normal          = "Normal transaction behavior" -/
inductive Reason where
  | high_velocity
  | risk_with_spike
  | new_country
  | large_amount
  | midnight
  | anomaly
  | fraud_pattern
  | normal
deriving DecidableEq

/-- The rule block of predict (src/fraud_api.py lines 338-375): the two
short-circuiting BLOCK rules, then the accumulating FLAG tier, then the
ALLOW fallback with the canned reason. -/
def decision_rules (cfg : ResolvedConfig) (X : Features)
    (risk_score anomaly_score : ℚ) : Action × List Reason :=
  if cfg.enabled_checks.velocity ∧ cfg.velocity_threshold ≤ (X.txn_count_10min : Int) then
    (Action.BLOCK, [Reason.high_velocity])
  else if cfg.enabled_checks.ml_risk_score ∧ cfg.enabled_checks.amount_spike ∧
          cfg.high_risk_threshold < risk_score ∧
          cfg.amount_spike_multiplier ≤ X.amount_vs_avg then
    (Action.BLOCK, [Reason.risk_with_spike])
  else
    let reasons :=
      (if cfg.enabled_checks.geo_location ∧ X.is_new_country = 1 then
        [Reason.new_country] else []) ++
      (if cfg.enabled_checks.amount_spike ∧ cfg.amount_spike_multiplier ≤ X.amount_vs_avg then
        [Reason.large_amount] else []) ++
      (if cfg.enabled_checks.midnight ∧ X.is_midnight_txn = 1 then
        [Reason.midnight] else []) ++
      (if cfg.enabled_checks.anomaly_detection ∧ cfg.anomaly_score_threshold < anomaly_score then
        [Reason.anomaly] else []) ++
      (if cfg.enabled_checks.ml_risk_score ∧ cfg.flag_risk_threshold < risk_score then
        [Reason.fraud_pattern] else [])
    if reasons = [] then (Action.ALLOW, [Reason.normal]) else (Action.FLAG, reasons)

/-- The fields of predict's JSON response relevant to the core (risk and
anomaly scores are echoed back rounded for display; rounding is not part of
the decision logic and is not modelled). -/
structure PredictResult where
  action : Action
  reasons : List Reason
  velocity_count : Nat
  velocity_sum : ℚ
deriving DecidableEq

/-- The per-user slices of the Redis store, keyed by user_id. -/
structure ServerState where
  users : List (String × UserState)
deriving DecidableEq

/-- Server state before any transaction. -/
def emptyServerState : ServerState := { users := [] }

/-- All Redis keys for a given user (txn:{u}, amt:{u}, last_country:{u}). -/
def getUserState (st : ServerState) (uid : String) : UserState :=
  (st.users.lookup uid).getD emptyUserState

/-- Replace the stored slice for a user. -/
def setUserState (st : ServerState) (uid : String) (u : UserState) : ServerState :=
  { users := (uid, u) :: st.users.filter (fun p => p.1 ≠ uid) }

/-- predict(txn) from src/fraud_api.py: velocity update, geo update, feature
build, then the rule block. External inputs that the handler reads from the
environment are passed explicitly: `now` (time.time()), `nowHour` (the local
hour of datetime.now(), used when the request carries no timestamp), and the
model outputs risk/anomaly (0 when the pickled models failed to load). -/
def predict (cfg : ResolvedConfig) (st : ServerState) (txn : TransactionRequest)
    (now : Int) (nowHour : Nat) (risk_score anomaly_score : ℚ) :
    ServerState × PredictResult :=
  let u0 := getUserState st txn.user_id
  let r1 := update_velocity u0 txn.amount now
  let r2 := get_and_update_country r1.1 txn.country now
  let hour := txn.timestampHour.getD nowHour
  let X := build_features txn r1.2.1 r1.2.2 r2.2 hour
  let d := decision_rules cfg X risk_score anomaly_score
  (setUserState st txn.user_id r2.1,
   { action := d.1, reasons := d.2, velocity_count := r1.2.1, velocity_sum := r1.2.2 })

/-- A request body before validation: each required TransactionRequest field
may be absent. -/
structure RawRequest where
  user_id : Option String
  transaction_id : Option String
  amount : Option ℚ
  country : Option String
  timestampHour : Option Nat
deriving DecidableEq

/-- FastAPI/pydantic validation of the request body against
TransactionRequest: succeeds exactly when every required field is present.
amount is declared as a plain float — pydantic imposes no sign constraint. -/
def parseRequest (raw : RawRequest) : Option TransactionRequest :=
  match raw.user_id, raw.transaction_id, raw.amount, raw.country with
  | some u, some t, some a, some c =>
      some { user_id := u, transaction_id := t, amount := a, country := c,
             timestampHour := raw.timestampHour }
  | _, _, _, _ => none

/-- The /predict endpoint as the server runs it: pydantic validation first
(a validation failure is answered with 422 before the handler body runs, so
no state is touched), then predict. -/
def handle (cfg : ResolvedConfig) (st : ServerState) (raw : RawRequest)
    (now : Int) (nowHour : Nat) (risk_score anomaly_score : ℚ) :
    ServerState × Option PredictResult :=
  match parseRequest raw with
  | none => (st, none)
  | some txn =>
      let r := predict cfg st txn now nowHour risk_score anomaly_score
      (r.1, some r.2)

/-- One velocity event: the state transformer of a single update_velocity
call at a given timestamp with a given amount. -/
def velocity_step (st : UserState) (e : Int × ℚ) : UserState :=
  (update_velocity st e.2 e.1).1

/-- The user state after a chronological sequence of (timestamp, amount)
velocity events, starting from a never-seen user. -/
def runState (evs : List (Int × ℚ)) : UserState :=
  evs.foldl velocity_step emptyUserState

/-- Run a chronological sequence of (timestamp, amount) velocity events for
one user from a cold start; the second component is the (count, amount_sum)
pair returned by the most recent call ((0, 0) for the empty sequence). -/
def run_velocity (evs : List (Int × ℚ)) : UserState × Nat × ℚ :=
  evs.foldl (fun acc e => update_velocity acc.1 e.2 e.1) (emptyUserState, 0, 0)

/-- The timestamp of the most recent event carrying a given amount, if any.
This is the score Redis keeps for that amount member, since ZADD overwrites
the score of an existing member. -/
def lastTs (evs : List (Int × ℚ)) (a : ℚ) : Option Int :=
  (evs.reverse.find? (fun e => e.2 == a)).map Prod.fst

/-- Characterization of the Redis velocity sets after a chronological run of
events: the txn set holds each distinct in-window timestamp exactly once
(member = score = timestamp), and the amt set holds each amount whose most
recent occurrence is in-window, exactly once, scored by that occurrence. -/
structure VelInv (evs : List (Int × ℚ)) (st : UserState) : Prop where
  txn_diag : ∀ p ∈ st.txn, p.2 = p.1
  txn_nonneg : ∀ p ∈ st.txn, 0 ≤ p.1
  txn_nodup : (st.txn.map Prod.fst).Nodup
  txn_mem : ∀ t : Int, t ∈ st.txn.map Prod.fst ↔
    (t ∈ evs.map Prod.fst ∧ (evs.map Prod.fst).getLastD 0 - 600 < t)
  amt_nonneg : ∀ p ∈ st.amt, 0 ≤ p.2
  amt_nodup : (st.amt.map Prod.fst).Nodup
  amt_mem : ∀ (a : ℚ) (s : Int), (a, s) ∈ st.amt ↔
    (lastTs evs a = some s ∧ (evs.map Prod.fst).getLastD 0 - 600 < s)

/-- The spec's formula for the amount_vs_baseline feature:
min(amount / max(baseline_amount, 1), 20) with the baseline taken from the
current rule configuration. Stated from the spec for comparison with
build_features, which the source implements with a local constant. -/
def amount_vs_baseline_spec (cfg : ResolvedConfig) (amount : ℚ) : ℚ :=
  min (amount / max cfg.baseline_amount 1) 20

/-- A partial config update carrying only a new baseline_amount. -/
def baselineUpdate : ConfigUpdate := { baseline_amount := some 100 }

/-- The configuration readers observe after merging baselineUpdate into the
default configuration. -/
def config_after_baseline_update : ResolvedConfig :=
  (update_config DEFAULT_CONFIG_STATE baselineUpdate).2.2

/-- A concrete transaction of amount 1000. -/
def demoTxn : TransactionRequest :=
  { user_id := "u1", transaction_id := "t1", amount := 1000, country := "IN",
    timestampHour := none }

/-- A request body with every required identifier present but a negative
amount. -/
def badAmountRaw : RawRequest :=
  { user_id := some "u1", transaction_id := some "t1", amount := some (-5),
    country := some "IN", timestampHour := none }

/-- A request body missing the required user_id field. -/
def missingIdRaw : RawRequest :=
  { user_id := none, transaction_id := some "t1", amount := some 250,
    country := some "IN", timestampHour := none }

/-- A concrete feature row sitting exactly on the two BLOCK-rule boundaries
under the default configuration: velocity count equal to the threshold 3,
amount ratio 5 above the spike multiplier. -/
def boundaryFeatures : Features :=
  { amount := 7500, amount_vs_avg := 5, time_diff_sec := 0, txn_count_10min := 3,
    amt_sum_10min := 7500, is_midnight_txn := 0, is_new_country := 0 }

/-! ## Theorems -/

/-- C3 (amended): the amount_vs_baseline feature computed by build_features
equals min(amount / max(1500, 1), 20) with the baseline hard-coded to 1500;
the configuration's baseline_amount field is never consulted. -/
theorem amount_vs_avg_uses_constant_baseline (txn : TransactionRequest)
    (txn_count : Nat) (amt_sum : ℚ) (last_country : String) (hour : Nat) :
    (build_features txn txn_count amt_sum last_country hour).amount_vs_avg
      = min (txn.amount / max (1500 : ℚ) 1) 20 := rfl

/-- C3 (counterexample): after a config merge sets baseline_amount to 100,
the spec formula for a 1000 transaction gives 10, but build_features still
computes min(1000 / 1500, 20) = 2/3: the feature does not track the current
configuration's baseline_amount. -/
theorem amount_vs_baseline_ignores_config :
    config_after_baseline_update.baseline_amount = 100
    ∧ amount_vs_baseline_spec config_after_baseline_update demoTxn.amount = 10
    ∧ (build_features demoTxn 0 0 "IN" 12).amount_vs_avg = 2 / 3
    ∧ (build_features demoTxn 0 0 "IN" 12).amount_vs_avg
        ≠ amount_vs_baseline_spec config_after_baseline_update demoTxn.amount := by
  have hs : amount_vs_baseline_spec config_after_baseline_update demoTxn.amount
      = min ((1000 : ℚ) / max 100 1) 20 := rfl
  have hf : (build_features demoTxn 0 0 "IN" 12).amount_vs_avg
      = min ((1000 : ℚ) / max 1500 1) 20 := rfl
  have h10 : amount_vs_baseline_spec config_after_baseline_update demoTxn.amount = 10 := by
    rw [hs]; norm_num [min_def, max_def]
  have h23 : (build_features demoTxn 0 0 "IN" 12).amount_vs_avg = 2 / 3 := by
    rw [hf]; norm_num [min_def, max_def]
  refine ⟨rfl, h10, h23, ?_⟩
  rw [h10, h23]; norm_num

/-- C5: when the velocity BLOCK rule, the ML risk check and the amount-spike
check are all enabled and all three triggering conditions hold simultaneously
(count at or above the velocity threshold, risk strictly above the high-risk
threshold, ratio at or above the spike multiplier), the decision is BLOCK with
exactly the velocity reason: the elif chain never evaluates the risk+spike
rule or any FLAG-tier rule. -/
theorem velocity_block_shortcircuits (cfg : ResolvedConfig) (X : Features)
    (risk_score anomaly_score : ℚ)
    (hvel : cfg.enabled_checks.velocity = true)
    (hml : cfg.enabled_checks.ml_risk_score = true)
    (hsp : cfg.enabled_checks.amount_spike = true)
    (hcount : cfg.velocity_threshold ≤ (X.txn_count_10min : Int))
    (hrisk : cfg.high_risk_threshold < risk_score)
    (hspike : cfg.amount_spike_multiplier ≤ X.amount_vs_avg) :
    decision_rules cfg X risk_score anomaly_score
      = (Action.BLOCK, [Reason.high_velocity]) := by
  simp [decision_rules, hvel, hcount]

/-- Witness for C5 at a concrete boundary-crossing input under the default
configuration. -/
theorem velocity_block_shortcircuits_witness :
    decision_rules DEFAULT_CONFIG boundaryFeatures (19 / 20) 0
      = (Action.BLOCK, [Reason.high_velocity]) :=
  velocity_block_shortcircuits DEFAULT_CONFIG boundaryFeatures (19 / 20) 0
    rfl rfl rfl (by decide)
    (by show (9 : ℚ) / 10 < 19 / 20; norm_num)
    (by show (3 : ℚ) ≤ 5; norm_num)

/-- The FLAG tier of the rule block only ever produces a FLAG or an ALLOW
result, never a BLOCK. -/
theorem flag_tier_ne (rs : List Reason) (c : Prop) [Decidable c] :
    (if c then (Action.ALLOW, [Reason.normal]) else (Action.FLAG, rs))
      ≠ (Action.BLOCK, [Reason.risk_with_spike]) := by
  split <;> simp

/-- C6: boundary semantics of the two BLOCK rules. With the velocity check
enabled, a velocity count exactly equal to the threshold triggers the velocity
BLOCK rule (inclusive comparison); with the ML risk and amount-spike checks
enabled, a risk score exactly equal to the high-risk threshold never yields
the risk+spike BLOCK outcome (strict comparison). -/
theorem block_rule_boundaries (cfg : ResolvedConfig) (X : Features)
    (risk_score anomaly_score : ℚ) :
    (cfg.enabled_checks.velocity = true →
      (X.txn_count_10min : Int) = cfg.velocity_threshold →
      decision_rules cfg X risk_score anomaly_score
        = (Action.BLOCK, [Reason.high_velocity]))
    ∧ (cfg.enabled_checks.ml_risk_score = true →
      cfg.enabled_checks.amount_spike = true →
      risk_score = cfg.high_risk_threshold →
      decision_rules cfg X risk_score anomaly_score
        ≠ (Action.BLOCK, [Reason.risk_with_spike])) := by
  constructor
  · intro hv hc
    simp [decision_rules, hv, hc]
  · intro hml hsp hr
    unfold decision_rules
    split
    · simp
    · split
      · rename_i h2
        rw [hr] at h2
        exact absurd h2.2.2.1 (lt_irrefl _)
      · exact flag_tier_ne _ _

/-- Witness for C6: under the default configuration with velocity count 3
(equal to the threshold) and risk score exactly 0.9 (the high-risk
threshold), the decision is the velocity BLOCK, not the risk+spike BLOCK. -/
theorem block_rule_boundaries_witness :
    decision_rules DEFAULT_CONFIG boundaryFeatures (9 / 10) 0
      = (Action.BLOCK, [Reason.high_velocity])
    ∧ decision_rules DEFAULT_CONFIG boundaryFeatures (9 / 10) 0
      ≠ (Action.BLOCK, [Reason.risk_with_spike]) :=
  ⟨(block_rule_boundaries DEFAULT_CONFIG boundaryFeatures (9 / 10) 0).1 rfl rfl,
   (block_rule_boundaries DEFAULT_CONFIG boundaryFeatures (9 / 10) 0).2 rfl rfl rfl⟩

/-- C7 (code evaluated at the failing input): merging a partial update that
disables the velocity check into the default configuration produces an audit
record whose "old config" already shows velocity disabled — old_config is a
shallow copy of CURRENT_CONFIG, so its enabled_checks entry aliases the
nested dict that the merge mutates in place before log_admin_action
serializes it. The recorded old config therefore differs from the
configuration that was actually in force before the merge. -/
theorem old_config_audit_aliasing :
    ((update_config DEFAULT_CONFIG_STATE
        { enabled_checks := some { velocity := some false } }).2.1).enabled_checks.velocity
      = false
    ∧ (resolve DEFAULT_CONFIG_STATE.heap DEFAULT_CONFIG_STATE.top).enabled_checks.velocity
      = true
    ∧ (update_config DEFAULT_CONFIG_STATE
        { enabled_checks := some { velocity := some false } }).2.1
      ≠ resolve DEFAULT_CONFIG_STATE.heap DEFAULT_CONFIG_STATE.top := by
  refine ⟨rfl, rfl, fun h => ?_⟩
  exact absurd (congrArg (fun c => c.enabled_checks.velocity) h) (by decide)

/-- C8: merging a partial update containing only velocity_threshold = 5
changes exactly that field of the observable configuration; every other
top-level field and every nested enabled_checks entry is unchanged. -/
theorem config_merge_isolation (st : ConfigState) :
    resolve (update_config st { velocity_threshold := some 5 }).1.heap
        (update_config st { velocity_threshold := some 5 }).1.top
      = { resolve st.heap st.top with velocity_threshold := 5 } := rfl

/-- C9: cold start. When the user has no live last-country record (never
seen, or the record's TTL has expired), get_and_update_country falls back to
the transaction's own country, so build_features computes is_new_country = 0
whatever the country value is. -/
theorem cold_start_not_new_country (st : UserState) (txn : TransactionRequest)
    (now : Int) (txn_count : Nat) (amt_sum : ℚ) (hour : Nat)
    (h : redis_get st.lastCountry now = none) :
    (build_features txn txn_count amt_sum
        (get_and_update_country st txn.country now).2 hour).is_new_country = 0 := by
  simp [get_and_update_country, h, build_features]

/-- Witness for C9 at a concrete never-seen user. -/
theorem cold_start_not_new_country_witness :
    (build_features
        { user_id := "u2", transaction_id := "t9", amount := 10000,
          country := "FR", timestampHour := none } 1 10000
        (get_and_update_country emptyUserState "FR" 1000).2 12).is_new_country = 0 :=
  cold_start_not_new_country emptyUserState
    { user_id := "u2", transaction_id := "t9", amount := 10000,
      country := "FR", timestampHour := none } 1000 1 10000 12 rfl

/-- C1 (amended): a request missing a required identifier fails pydantic
validation, is answered before the handler body runs, and leaves the server
state — every user's velocity window and last-country record — exactly as it
was. (A non-positive amount, by contrast, passes validation: see the
counterexample.) -/
theorem missing_identifiers_rejected_no_mutation (cfg : ResolvedConfig)
    (st : ServerState) (raw : RawRequest) (now : Int) (nowHour : Nat)
    (risk_score anomaly_score : ℚ)
    (h : parseRequest raw = none) :
    handle cfg st raw now nowHour risk_score anomaly_score = (st, none) := by
  simp [handle, h]

/-- Witness for the amended C1: a request without user_id is rejected with no
state change. -/
theorem missing_identifiers_rejected_no_mutation_witness :
    handle DEFAULT_CONFIG emptyServerState missingIdRaw 1000 12 0 0
      = (emptyServerState, none) :=
  missing_identifiers_rejected_no_mutation DEFAULT_CONFIG emptyServerState
    missingIdRaw 1000 12 0 0 rfl

/-- C1 (counterexample): a transaction with amount -5 and all identifiers
present is NOT rejected — TransactionRequest declares amount as a plain float
— so it reaches update_velocity and mutates the user's velocity window: the
claim that non-positive amounts are rejected before the velocity tracker with
no state mutation is false on the code. -/
theorem nonpositive_amount_not_rejected :
    (handle DEFAULT_CONFIG emptyServerState badAmountRaw 1000 12 0 0).2 ≠ none
    ∧ (getUserState (handle DEFAULT_CONFIG emptyServerState badAmountRaw
        1000 12 0 0).1 "u1").txn = [(1000, 1000)]
    ∧ getUserState (handle DEFAULT_CONFIG emptyServerState badAmountRaw
        1000 12 0 0).1 "u1" ≠ getUserState emptyServerState "u1" := by
  refine ⟨fun h => Option.noConfusion h, rfl, fun h => ?_⟩
  have h1 : (getUserState (handle DEFAULT_CONFIG emptyServerState badAmountRaw
      1000 12 0 0).1 "u1").txn = [(1000, 1000)] := rfl
  rw [h] at h1
  exact absurd h1 (by decide)

/-- Splitting the sum of first components of an association list by whether
the key equals a given value. -/
theorem sum_map_fst_filter_split (l : List (ℚ × Int)) (a : ℚ) :
    ((l.filter (fun p => p.1 ≠ a)).map Prod.fst).sum
      + ((l.filter (fun p => p.1 = a)).map Prod.fst).sum
      = (l.map Prod.fst).sum := by
  induction l with
  | nil => simp
  | cons p l ih =>
    by_cases h : p.1 = a
    · simp [List.filter_cons, h] at ih ⊢
      linarith [ih]
    · simp [List.filter_cons, h] at ih ⊢
      linarith [ih]

/-- Dropping entries with nonnegative first components can only decrease the
sum of first components. -/
theorem sum_map_fst_filter_le (l : List (ℚ × Int)) (q : ℚ × Int → Bool)
    (h : ∀ p ∈ l, 0 ≤ p.1) :
    ((l.filter q).map Prod.fst).sum ≤ (l.map Prod.fst).sum := by
  induction l with
  | nil => simp
  | cons p l ih =>
    have hp : (0 : ℚ) ≤ p.1 := h p (List.mem_cons_self p l)
    have ih' := ih (fun x hx => h x (List.mem_cons_of_mem p hx))
    by_cases hq : q p = true
    · simp only [List.filter_cons, hq, if_true, List.map_cons, List.sum_cons]
      linarith
    · simp only [List.filter_cons, hq, if_false, List.map_cons, List.sum_cons,
        Bool.false_eq_true]
      linarith

/-- After an update_velocity call with amount a, the surviving amt set holds
the member a exactly once, scored with the call's timestamp: ZADD removed any
previous entry for that member and the fresh score always survives the
pruning. -/
theorem update_velocity_amt_filter_self (st : UserState) (a : ℚ) (now : Int) :
    (update_velocity st a now).1.amt.filter (fun p => p.1 = a) = [(a, now)] := by
  have hcond : ¬((0 : Int) ≤ now ∧ now ≤ now - WINDOW_SECONDS) := by
    simp only [WINDOW_SECONDS, not_and]
    intro _
    omega
  have key : (update_velocity st a now).1.amt
      = List.filter (fun p => decide ¬(0 ≤ p.2 ∧ p.2 ≤ now - WINDOW_SECONDS))
          (List.filter (fun p => decide (p.1 ≠ a)) st.amt) ++ [(a, now)] := by
    show List.filter _ (List.filter _ st.amt ++ [(a, now)]) = _
    rw [List.filter_append]
    simp [List.filter_cons, hcond]
    intro _
    norm_num [WINDOW_SECONDS]
  rw [key, List.filter_append]
  have pc1 : List.filter (fun p => decide (p.1 = a))
      (List.filter (fun p => decide ¬(0 ≤ p.2 ∧ p.2 ≤ now - WINDOW_SECONDS))
        (List.filter (fun p => decide (p.1 ≠ a)) st.amt)) = [] := by
    apply List.filter_eq_nil_iff.2
    intro x hx
    have hne := (List.mem_filter.1 (List.mem_filter.1 hx).1).2
    simp only [decide_eq_true_eq] at hne ⊢
    exact hne
  have pc2 : List.filter (fun p => decide (p.1 = a)) [(a, now)] = [(a, now)] := by
    simp
  rw [pc1, pc2, List.nil_append]

/-- C10: the per-user amount record is keyed by the amount value itself: a
second velocity update carrying an amount equal to the entry the previous
call just recorded (still inside the window) does not increase the returned
amount sum — the duplicate amount contributes at most once. -/
theorem duplicate_amount_sum_not_increased (st : UserState) (a : ℚ) (now now' : Int)
    (hpos : ∀ p ∈ st.amt, 0 ≤ p.1) (ha : 0 ≤ a)
    (hord : now ≤ now') (hwin : now' - 600 < now) :
    (update_velocity (update_velocity st a now).1 a now').2.2
      ≤ (update_velocity st a now).2.2 := by
  have hApos : ∀ p ∈ (update_velocity st a now).1.amt, 0 ≤ p.1 := by
    intro p hp
    have hp1 := (List.mem_filter.1 hp).1
    rcases List.mem_append.1 hp1 with hmem | hmem
    · exact hpos p (List.mem_filter.1 hmem).1
    · rcases List.mem_singleton.1 hmem with rfl
      exact ha
  have hZpos : ∀ p ∈ zadd (update_velocity st a now).1.amt a now', 0 ≤ p.1 := by
    intro p hp
    rcases List.mem_append.1 hp with hmem | hmem
    · exact hApos p (List.mem_filter.1 hmem).1
    · rcases List.mem_singleton.1 hmem with rfl
      exact ha
  have hL : (update_velocity (update_velocity st a now).1 a now').2.2
      = ((List.filter (fun p => ¬(0 ≤ p.2 ∧ p.2 ≤ now' - WINDOW_SECONDS))
          (zadd (update_velocity st a now).1.amt a now')).map Prod.fst).sum := rfl
  have hR : (update_velocity st a now).2.2
      = ((update_velocity st a now).1.amt.map Prod.fst).sum := rfl
  rw [hL, hR]
  calc ((List.filter (fun p => ¬(0 ≤ p.2 ∧ p.2 ≤ now' - WINDOW_SECONDS))
          (zadd (update_velocity st a now).1.amt a now')).map Prod.fst).sum
      ≤ ((zadd (update_velocity st a now).1.amt a now').map Prod.fst).sum :=
        sum_map_fst_filter_le _ _ hZpos
    _ = (((update_velocity st a now).1.amt.filter (fun p => p.1 ≠ a)).map Prod.fst).sum
          + a := by
        simp [zadd]
    _ = (((update_velocity st a now).1.amt.filter (fun p => p.1 ≠ a)).map Prod.fst).sum
          + (((update_velocity st a now).1.amt.filter (fun p => p.1 = a)).map
              Prod.fst).sum := by
        rw [update_velocity_amt_filter_self st a now]
        simp
    _ = ((update_velocity st a now).1.amt.map Prod.fst).sum :=
        sum_map_fst_filter_split _ a

/-- Witness for C10: two immediate updates of amount 5 for a fresh user — the
second returns the same sum, not 10. -/
theorem duplicate_amount_sum_not_increased_witness :
    (update_velocity (update_velocity emptyUserState 5 1000).1 5 1000).2.2
      ≤ (update_velocity emptyUserState 5 1000).2.2 :=
  duplicate_amount_sum_not_increased emptyUserState 5 1000 1000
    (by simp [emptyUserState]) (by norm_num) (le_refl 1000) (by norm_num)

/-- The last element of a nonempty list is a member. -/
theorem getLastD_mem_of_ne_nil {α : Type} (l : List α) (h : l ≠ []) (d : α) :
    l.getLastD d ∈ l := by
  induction l generalizing d with
  | nil => exact absurd rfl h
  | cons a l ih =>
    cases l with
    | nil => simp
    | cons b m =>
      rw [List.getLastD_cons]
      exact List.mem_cons_of_mem a (ih (by simp) a)

/-- Two duplicate-free lists with the same members have the same length. -/
theorem length_eq_of_nodup_mem_iff {α : Type} [DecidableEq α] {l₁ l₂ : List α}
    (h₁ : l₁.Nodup) (h₂ : l₂.Nodup) (h : ∀ x, x ∈ l₁ ↔ x ∈ l₂) :
    l₁.length = l₂.length := by
  rw [← List.toFinset_card_of_nodup h₁, ← List.toFinset_card_of_nodup h₂]
  congr 1
  ext x
  simp only [List.mem_toFinset]
  exact h x

/-- Two duplicate-free lists of rationals with the same members have the same
sum. -/
theorem sum_eq_of_nodup_mem_iff {l₁ l₂ : List ℚ}
    (h₁ : l₁.Nodup) (h₂ : l₂.Nodup) (h : ∀ x, x ∈ l₁ ↔ x ∈ l₂) :
    l₁.sum = l₂.sum := by
  apply List.Perm.sum_eq
  apply List.perm_of_nodup_nodup_toFinset_eq h₁ h₂
  ext x
  simp only [List.mem_toFinset]
  exact h x

/-- The state component of run_velocity is runState. -/
theorem run_velocity_fst (evs : List (Int × ℚ)) :
    (run_velocity evs).1 = runState evs := by
  suffices h : ∀ (l : List (Int × ℚ)) (acc : UserState × Nat × ℚ),
      (l.foldl (fun acc e => update_velocity acc.1 e.2 e.1) acc).1
        = l.foldl velocity_step acc.1 by
    exact h evs (emptyUserState, 0, 0)
  intro l
  induction l with
  | nil => intro acc; rfl
  | cons e l ih =>
    intro acc
    simp only [List.foldl_cons]
    exact ih (update_velocity acc.1 e.2 e.1)

/-- Evaluating run_velocity on a sequence ending with one more event. -/
theorem run_velocity_concat (evs : List (Int × ℚ)) (e : Int × ℚ) :
    run_velocity (evs ++ [e]) = update_velocity (runState evs) e.2 e.1 := by
  have h1 : run_velocity (evs ++ [e])
      = update_velocity (run_velocity evs).1 e.2 e.1 := by
    unfold run_velocity
    rw [List.foldl_append]
    rfl
  rw [h1, run_velocity_fst]

/-- Evaluating runState on a sequence ending with one more event. -/
theorem runState_concat (evs : List (Int × ℚ)) (e : Int × ℚ) :
    runState (evs ++ [e]) = velocity_step (runState evs) e := by
  unfold runState
  rw [List.foldl_append]
  rfl

/-- The most recent call's count is the size of the surviving txn set. -/
theorem run_velocity_count_link (evs : List (Int × ℚ)) (hne : evs ≠ []) :
    (run_velocity evs).2.1 = (runState evs).txn.length := by
  rcases List.eq_nil_or_concat evs with rfl | ⟨pre, e, hsplit⟩
  · exact absurd rfl hne
  · rw [List.concat_eq_append] at hsplit
    rw [hsplit, run_velocity_concat, runState_concat]
    rfl

/-- The most recent call's amount sum is the sum of the surviving amt
members. -/
theorem run_velocity_sum_link (evs : List (Int × ℚ)) (hne : evs ≠ []) :
    (run_velocity evs).2.2 = ((runState evs).amt.map Prod.fst).sum := by
  rcases List.eq_nil_or_concat evs with rfl | ⟨pre, e, hsplit⟩
  · exact absurd rfl hne
  · rw [List.concat_eq_append] at hsplit
    rw [hsplit, run_velocity_concat, runState_concat]
    rfl

/-- lastTs over a sequence extended by one event. -/
theorem lastTs_concat (evs : List (Int × ℚ)) (t : Int) (b : ℚ) (a : ℚ) :
    lastTs (evs ++ [(t, b)]) a = if b = a then some t else lastTs evs a := by
  unfold lastTs
  rw [List.reverse_append]
  by_cases hb : b = a
  · simp [hb]
  · simp [hb]

/-- One update_velocity call preserves the window characterization: the call
replaces (not duplicates) the sorted-set entries for its timestamp and its
amount and prunes everything at or below the new cutoff. -/
theorem velInv_step (evs : List (Int × ℚ)) (st : UserState) (t : Int) (b : ℚ)
    (inv : VelInv evs st) (ht0 : 0 ≤ t)
    (hle : ∀ e ∈ evs, e.1 ≤ t) :
    VelInv (evs ++ [(t, b)]) (velocity_step st (t, b)) := by
  have hlast : ((evs ++ [(t, b)]).map Prod.fst).getLastD 0 = t := by
    rw [List.map_append]
    exact List.getLastD_concat _ _ _
  have hTle : ∀ u : Int, u ∈ evs.map Prod.fst → u ≤ t := by
    intro u hu
    rcases List.mem_map.1 hu with ⟨e, he, rfl⟩
    exact hle e he
  have hT : (evs.map Prod.fst).getLastD 0 ≤ t := by
    rcases hevs : evs with _ | ⟨e, es⟩
    · simpa using ht0
    · rw [← hevs]
      exact hTle _ (getLastD_mem_of_ne_nil (evs.map Prod.fst) (by rw [hevs]; simp) 0)
  have htxn : (velocity_step st (t, b)).txn
      = List.filter (fun p => decide ¬(0 ≤ p.2 ∧ p.2 ≤ t - 600))
          (List.filter (fun p => decide (p.1 ≠ t)) st.txn ++ [(t, t)]) := rfl
  have hamt : (velocity_step st (t, b)).amt
      = List.filter (fun p => decide ¬(0 ≤ p.2 ∧ p.2 ≤ t - 600))
          (List.filter (fun p => decide (p.1 ≠ b)) st.amt ++ [(b, t)]) := rfl
  refine ⟨?_, ?_, ?_, ?_, ?_, ?_, ?_⟩
  · -- txn_diag
    rw [htxn]
    intro p hp
    rcases List.mem_append.1 (List.mem_filter.1 hp).1 with h | h
    · exact inv.txn_diag p (List.mem_filter.1 h).1
    · rcases List.mem_singleton.1 h with rfl
      rfl
  · -- txn_nonneg
    rw [htxn]
    intro p hp
    rcases List.mem_append.1 (List.mem_filter.1 hp).1 with h | h
    · exact inv.txn_nonneg p (List.mem_filter.1 h).1
    · rcases List.mem_singleton.1 h with rfl
      exact ht0
  · -- txn_nodup
    rw [htxn]
    apply List.Nodup.sublist (List.Sublist.map Prod.fst (List.filter_sublist _))
    rw [List.map_append]
    apply List.Nodup.append
    · exact List.Nodup.sublist (List.Sublist.map Prod.fst (List.filter_sublist _))
        inv.txn_nodup
    · simp
    · intro x hx
      rcases List.mem_map.1 hx with ⟨p, hp, rfl⟩
      have hne := (List.mem_filter.1 hp).2
      simp only [decide_eq_true_eq] at hne
      simpa using hne
  · -- txn_mem
    rw [htxn, hlast]
    intro u
    have haddt : (u : Int) = t →
        u ∈ (List.filter (fun p => decide ¬(0 ≤ p.2 ∧ p.2 ≤ t - 600))
          (List.filter (fun p => decide (p.1 ≠ t)) st.txn ++ [(t, t)])).map Prod.fst := by
      rintro rfl
      refine List.mem_map.2 ⟨(u, u), List.mem_filter.2
        ⟨List.mem_append_right _ (List.mem_singleton.2 rfl), ?_⟩, rfl⟩
      simp only [decide_eq_true_eq]
      omega
    constructor
    · intro hu
      rcases List.mem_map.1 hu with ⟨p, hp, rfl⟩
      have hsurv := (List.mem_filter.1 hp).2
      simp only [decide_eq_true_eq] at hsurv
      rcases List.mem_append.1 (List.mem_filter.1 hp).1 with h | h
      · have hmem := (List.mem_filter.1 h).1
        have hdiag := inv.txn_diag p hmem
        have hnn := inv.txn_nonneg p hmem
        have hin := (inv.txn_mem p.1).1 (List.mem_map_of_mem Prod.fst hmem)
        refine ⟨?_, ?_⟩
        · rw [List.map_append]
          exact List.mem_append_left _ hin.1
        · rw [hdiag] at hsurv
          omega
      · rcases List.mem_singleton.1 h with rfl
        refine ⟨?_, by omega⟩
        rw [List.map_append]
        exact List.mem_append_right _ (by simp)
    · rintro ⟨humem, hwin⟩
      rw [List.map_append] at humem
      rcases List.mem_append.1 humem with h | h
      · by_cases hut : u = t
        · exact haddt hut
        · have hin := (inv.txn_mem u).2 ⟨h, by omega⟩
          rcases List.mem_map.1 hin with ⟨p, hp, rfl⟩
          refine List.mem_map.2 ⟨p, List.mem_filter.2 ⟨List.mem_append_left _
            (List.mem_filter.2 ⟨hp, ?_⟩), ?_⟩, rfl⟩
          · simp only [decide_eq_true_eq]
            exact hut
          · simp only [decide_eq_true_eq]
            rw [inv.txn_diag p hp]
            omega
      · exact haddt (by simpa using h)
  · -- amt_nonneg (scores)
    rw [hamt]
    intro p hp
    rcases List.mem_append.1 (List.mem_filter.1 hp).1 with h | h
    · exact inv.amt_nonneg p (List.mem_filter.1 h).1
    · rcases List.mem_singleton.1 h with rfl
      exact ht0
  · -- amt_nodup
    rw [hamt]
    apply List.Nodup.sublist (List.Sublist.map Prod.fst (List.filter_sublist _))
    rw [List.map_append]
    apply List.Nodup.append
    · exact List.Nodup.sublist (List.Sublist.map Prod.fst (List.filter_sublist _))
        inv.amt_nodup
    · simp
    · intro x hx
      rcases List.mem_map.1 hx with ⟨p, hp, rfl⟩
      have hne := (List.mem_filter.1 hp).2
      simp only [decide_eq_true_eq] at hne
      simpa using hne
  · -- amt_mem
    rw [hamt, hlast]
    intro a s
    rw [lastTs_concat]
    by_cases hba : b = a
    · rw [if_pos hba]
      constructor
      · intro hmem
        have hsurv := (List.mem_filter.1 hmem).2
        simp only [decide_eq_true_eq] at hsurv
        rcases List.mem_append.1 (List.mem_filter.1 hmem).1 with h | h
        · have hne := (List.mem_filter.1 h).2
          simp only [decide_eq_true_eq] at hne
          exact absurd hba.symm hne
        · rcases List.mem_singleton.1 h with heq
          simp only [Prod.mk.injEq] at heq
          obtain ⟨rfl, rfl⟩ := heq
          exact ⟨rfl, by omega⟩
      · rintro ⟨hsome, hwin⟩
        obtain rfl : t = s := by
          simpa using hsome
        subst hba
        apply List.mem_filter.2
        refine ⟨List.mem_append_right _ (List.mem_singleton.2 rfl), ?_⟩
        simp only [decide_eq_true_eq]
        omega
    · rw [if_neg hba]
      constructor
      · intro hmem
        have hsurv := (List.mem_filter.1 hmem).2
        simp only [decide_eq_true_eq] at hsurv
        rcases List.mem_append.1 (List.mem_filter.1 hmem).1 with h | h
        · have hmem0 := (List.mem_filter.1 h).1
          have hin := (inv.amt_mem a s).1 hmem0
          have hnn := inv.amt_nonneg (a, s) hmem0
          exact ⟨hin.1, by omega⟩
        · rcases List.mem_singleton.1 h with heq
          simp only [Prod.mk.injEq] at heq
          exact absurd heq.1.symm hba
      · rintro ⟨hlt, hwin⟩
        have hmem0 := (inv.amt_mem a s).2 ⟨hlt, by omega⟩
        have hnn := inv.amt_nonneg (a, s) hmem0
        apply List.mem_filter.2
        refine ⟨List.mem_append_left _ (List.mem_filter.2 ⟨hmem0, ?_⟩), ?_⟩
        · simp only [decide_eq_true_eq]
          exact fun hab => hba hab.symm
        · simp only [decide_eq_true_eq]
          omega

/-- The window characterization holds after any chronological run of
nonnegative-timestamp events from a cold start. -/
theorem velInv_run (evs : List (Int × ℚ)) :
    (∀ e ∈ evs, 0 ≤ e.1) → ((evs.map Prod.fst).Pairwise (· ≤ ·)) →
    VelInv evs (runState evs) := by
  induction evs using List.reverseRecOn with
  | nil =>
    intro _ _
    refine ⟨?_, ?_, ?_, ?_, ?_, ?_, ?_⟩ <;> simp [runState, emptyUserState, lastTs]
  | append_singleton evs e ih =>
    intro h0 hsorted
    rw [runState_concat]
    have h0' : ∀ x ∈ evs, 0 ≤ x.1 := fun x hx => h0 x (List.mem_append_left _ hx)
    rw [List.map_append] at hsorted
    have hsorted' : (evs.map Prod.fst).Pairwise (· ≤ ·) :=
      (List.pairwise_append.1 hsorted).1
    have hle : ∀ x ∈ evs, x.1 ≤ e.1 := by
      have hcross := (List.pairwise_append.1 hsorted).2.2
      intro x hx
      exact hcross x.1 (List.mem_map_of_mem _ hx) e.1 (by simp)
    have ht0 : 0 ≤ e.1 := h0 e (List.mem_append_right _ (by simp))
    exact velInv_step evs (runState evs) e.1 e.2 (ih h0' hsorted') ht0 hle

/-- For a reverse-chronological list, restricting to entries above the cutoff
does not change whether an amount's most recent occurrence lies above the
cutoff: the first match in the unrestricted list is the latest one, so either
it survives the restriction or every match is at or below the cutoff. -/
theorem find_last_filter (rl : List (Int × ℚ)) (a : ℚ) (c : Int)
    (hmono : (rl.map Prod.fst).Pairwise (fun x y => y ≤ x)) :
    (∃ s, ((rl.filter (fun e => decide (c < e.1))).find?
        (fun e => e.2 == a)).map Prod.fst = some s ∧ c < s)
    ↔ (∃ s, (rl.find? (fun e => e.2 == a)).map Prod.fst = some s ∧ c < s) := by
  induction rl with
  | nil => simp
  | cons e rl ih =>
    rw [List.map_cons, List.pairwise_cons] at hmono
    have hhead : ∀ x ∈ rl.map Prod.fst, x ≤ e.1 := hmono.1
    by_cases hqa : e.2 = a
    · by_cases hce : c < e.1
      · rw [List.filter_cons_of_pos (by simpa using hce),
          List.find?_cons_of_pos _ (by simpa using hqa),
          List.find?_cons_of_pos _ (by simpa using hqa)]
      · have hnil : rl.filter (fun e => decide (c < e.1)) = [] := by
          apply List.filter_eq_nil_iff.2
          intro x hx
          have := hhead x.1 (List.mem_map_of_mem _ hx)
          simp only [decide_eq_true_eq]
          omega
        rw [List.filter_cons_of_neg (by simpa using hce),
          List.find?_cons_of_pos _ (by simpa using hqa), hnil]
        simp [hce]
    · by_cases hce : c < e.1
      · rw [List.filter_cons_of_pos (by simpa using hce),
          List.find?_cons_of_neg _ (by simpa using hqa),
          List.find?_cons_of_neg _ (by simpa using hqa)]
        exact ih hmono.2
      · rw [List.filter_cons_of_neg (by simpa using hce),
          List.find?_cons_of_neg _ (by simpa using hqa)]
        exact ih hmono.2

/-- For a chronological event sequence, an amount's most recent occurrence
lies above the cutoff in the full history exactly when it does in the history
restricted to events above the cutoff. -/
theorem lastTs_filter_window (evs : List (Int × ℚ)) (c : Int) (a : ℚ)
    (hsorted : (evs.map Prod.fst).Pairwise (· ≤ ·)) :
    (∃ s, lastTs (evs.filter (fun e => decide (c < e.1))) a = some s ∧ c < s)
    ↔ (∃ s, lastTs evs a = some s ∧ c < s) := by
  unfold lastTs
  rw [← List.filter_reverse]
  apply find_last_filter
  rw [List.map_reverse]
  exact List.pairwise_reverse.2 hsorted

/-- A constant list is sorted. -/
theorem pairwise_replicate_le (n : Nat) (x : Int) :
    (List.replicate n x).Pairwise (· ≤ ·) := by
  induction n with
  | zero => exact List.Pairwise.nil
  | succ n ih =>
    rw [List.replicate_succ]
    exact List.Pairwise.cons (fun y hy => by rw [List.eq_of_mem_replicate hy]) ih

/-- The last element of a nonempty constant list. -/
theorem getLastD_replicate (n : Nat) (x d : Int) (h : n ≠ 0) :
    (List.replicate n x).getLastD d = x := by
  rcases n with _ | m
  · exact absurd rfl h
  · clear h
    induction m generalizing d with
    | zero => rfl
    | succ k ih =>
      rw [List.replicate_succ, List.getLastD_cons]
      exact ih x

/-- C4 (amended): for chronological (nondecreasing, nonnegative-timestamp)
event sequences of one user, the count returned by the final update at time
`now` equals the number of DISTINCT timestamps among prior-plus-current events
with timestamp > now − W — same-second events collapse into a single
sorted-set entry — and events with timestamp at or below now − W contribute
neither to the returned count nor to the returned amount sum: the returned
(count, sum) pair is unchanged when those old events are removed from the
history. -/
theorem velocity_window_correctness (pre : List (Int × ℚ)) (now : Int) (a : ℚ)
    (h0 : ∀ e ∈ pre ++ [(now, a)], 0 ≤ e.1)
    (hsorted : ((pre ++ [(now, a)]).map Prod.fst).Pairwise (· ≤ ·)) :
    (run_velocity (pre ++ [(now, a)])).2.1
      = (((pre ++ [(now, a)]).map Prod.fst).filter
          (fun u => now - 600 < u)).toFinset.card
    ∧ (run_velocity (pre ++ [(now, a)])).2
      = (run_velocity ((pre ++ [(now, a)]).filter (fun e => now - 600 < e.1))).2 := by
  set evs := pre ++ [(now, a)] with hevs
  have hne : evs ≠ [] := by
    rw [hevs]
    simp
  have hlastf : (evs.map Prod.fst).getLastD 0 = now := by
    rw [hevs, List.map_append]
    exact List.getLastD_concat _ _ _
  have inv := velInv_run evs h0 hsorted
  have hwin_now : now - 600 < now := by omega
  set evsF := evs.filter (fun e => decide (now - 600 < e.1)) with hF
  have hFsplit : evsF = pre.filter (fun e => decide (now - 600 < e.1)) ++ [(now, a)] := by
    rw [hF, hevs, List.filter_append]
    congr 1
    rw [List.filter_cons_of_pos (by simpa using hwin_now)]
    rfl
  have hneF : evsF ≠ [] := by
    rw [hFsplit]
    simp
  have h0F : ∀ e ∈ evsF, 0 ≤ e.1 := by
    intro e he
    rw [hF] at he
    exact h0 e (List.mem_filter.1 he).1
  have hsortedF : (evsF.map Prod.fst).Pairwise (· ≤ ·) := by
    rw [hF]
    exact List.Pairwise.sublist (List.Sublist.map Prod.fst (List.filter_sublist _)) hsorted
  have invF := velInv_run evsF h0F hsortedF
  have hlastF : (evsF.map Prod.fst).getLastD 0 = now := by
    rw [hFsplit, List.map_append]
    exact List.getLastD_concat _ _ _
  have hmemF : ∀ u : Int,
      u ∈ evsF.map Prod.fst ↔ (u ∈ evs.map Prod.fst ∧ now - 600 < u) := by
    intro u
    rw [hF]
    constructor
    · intro hu
      rcases List.mem_map.1 hu with ⟨e, he, rfl⟩
      have h1 := (List.mem_filter.1 he).1
      have h2 := (List.mem_filter.1 he).2
      simp only [decide_eq_true_eq] at h2
      exact ⟨List.mem_map_of_mem _ h1, h2⟩
    · rintro ⟨hu, hw⟩
      rcases List.mem_map.1 hu with ⟨e, he, rfl⟩
      exact List.mem_map_of_mem _ (List.mem_filter.2 ⟨he, by simpa using hw⟩)
  constructor
  · rw [run_velocity_count_link evs hne]
    rw [show (runState evs).txn.length = ((runState evs).txn.map Prod.fst).length from
      (List.length_map _ _).symm]
    rw [← List.toFinset_card_of_nodup inv.txn_nodup]
    congr 1
    ext u
    simp only [List.mem_toFinset, List.mem_filter, decide_eq_true_eq]
    rw [inv.txn_mem u, hlastf]
  · have hcount : (run_velocity evs).2.1 = (run_velocity evsF).2.1 := by
      rw [run_velocity_count_link evs hne, run_velocity_count_link evsF hneF]
      rw [show (runState evs).txn.length = ((runState evs).txn.map Prod.fst).length from
        (List.length_map _ _).symm,
        show (runState evsF).txn.length = ((runState evsF).txn.map Prod.fst).length from
        (List.length_map _ _).symm]
      apply length_eq_of_nodup_mem_iff inv.txn_nodup invF.txn_nodup
      intro u
      rw [inv.txn_mem u, invF.txn_mem u, hlastf, hlastF, hmemF u]
      constructor
      · rintro ⟨hu, hw⟩
        exact ⟨⟨hu, hw⟩, hw⟩
      · rintro ⟨⟨hu, hw⟩, _⟩
        exact ⟨hu, hw⟩
    have hsum : (run_velocity evs).2.2 = (run_velocity evsF).2.2 := by
      rw [run_velocity_sum_link evs hne, run_velocity_sum_link evsF hneF]
      apply sum_eq_of_nodup_mem_iff inv.amt_nodup invF.amt_nodup
      intro x
      constructor
      · intro hx
        rcases List.mem_map.1 hx with ⟨p, hp, rfl⟩
        have h1 := (inv.amt_mem p.1 p.2).1 hp
        rw [hlastf] at h1
        have h2 : ∃ s, lastTs evsF p.1 = some s ∧ now - 600 < s := by
          have h3 := (lastTs_filter_window evs (now - 600) p.1 hsorted).2
            ⟨p.2, h1.1, h1.2⟩
          rw [← hF] at h3
          exact h3
        rcases h2 with ⟨s, hs, hw⟩
        have hmem := (invF.amt_mem p.1 s).2 ⟨hs, by rw [hlastF]; exact hw⟩
        exact List.mem_map.2 ⟨(p.1, s), hmem, rfl⟩
      · intro hx
        rcases List.mem_map.1 hx with ⟨p, hp, rfl⟩
        have h1 := (invF.amt_mem p.1 p.2).1 hp
        rw [hlastF] at h1
        have h2 : ∃ s, lastTs evs p.1 = some s ∧ now - 600 < s := by
          apply (lastTs_filter_window evs (now - 600) p.1 hsorted).1
          rw [← hF]
          exact ⟨p.2, h1.1, h1.2⟩
        rcases h2 with ⟨s, hs, hw⟩
        have hmem := (inv.amt_mem p.1 s).2 ⟨hs, by rw [hlastf]; exact hw⟩
        exact List.mem_map.2 ⟨(p.1, s), hmem, rfl⟩
    exact Prod.ext hcount hsum

/-- Witness for the amended C4 at a concrete two-event history: one event at
time 500 (outside the window of the final call at 1000) and the current event
at 1000. -/
theorem velocity_window_correctness_witness :
    (run_velocity [((500 : Int), (5 : ℚ)), (1000, 7)]).2.1
      = (([((500 : Int), (5 : ℚ)), (1000, 7)].map Prod.fst).filter
          (fun u => 1000 - 600 < u)).toFinset.card
    ∧ (run_velocity [((500 : Int), (5 : ℚ)), (1000, 7)]).2
      = (run_velocity ([((500 : Int), (5 : ℚ)), (1000, 7)].filter
          (fun e => 1000 - 600 < e.1))).2 :=
  velocity_window_correctness [(500, 5)] 1000 7 (by decide) (by decide)

/-- C4 (counterexample): two events sharing the timestamp 1000 both lie inside
the window, so the claim's count — the number of prior-plus-current events
with timestamp > now − W — is 2, but update_velocity returns 1: the sorted
set keyed by timestamp collapsed them into one entry. -/
theorem window_count_duplicate_timestamp :
    (run_velocity [((1000 : Int), (10 : ℚ)), (1000, 20)]).2.1 = 1
    ∧ ([(1000 : Int), 1000].filter (fun u => 1000 - 600 < u)).length = 2
    ∧ (run_velocity [((1000 : Int), (10 : ℚ)), (1000, 20)]).2.1
        ≠ ([(1000 : Int), 1000].filter (fun u => 1000 - 600 < u)).length := by
  refine ⟨rfl, rfl, ?_⟩
  rw [show (run_velocity [((1000 : Int), (10 : ℚ)), (1000, 20)]).2.1 = 1 from rfl]
  rw [show ([(1000 : Int), 1000].filter (fun u => 1000 - 600 < u)).length = 2 from rfl]
  omega

/-- C2 (amended): velocity calls arriving within the same second collapse to a
single entry of the txn sorted set, whose member is the timestamp itself: for
every nonempty burst of k same-second calls from a cold start, the count
returned by the latest call is 1, not k. -/
theorem same_second_calls_collapse_to_one (amts : List ℚ) (now : Int)
    (h0 : 0 ≤ now) (hne : amts ≠ []) :
    (run_velocity (amts.map (fun q => (now, q)))).2.1 = 1 := by
  set evs := amts.map (fun q => (now, q)) with hevs
  have hmapfst : evs.map Prod.fst = List.replicate amts.length now := by
    rw [hevs, List.map_map]
    exact List.map_const' amts now
  have hnee : evs ≠ [] := by
    rw [hevs]
    simpa using hne
  have h0' : ∀ e ∈ evs, 0 ≤ e.1 := by
    intro e he
    rw [hevs] at he
    rcases List.mem_map.1 he with ⟨q, _, rfl⟩
    exact h0
  have hsorted : (evs.map Prod.fst).Pairwise (· ≤ ·) := by
    rw [hmapfst]
    exact pairwise_replicate_le amts.length now
  have inv := velInv_run evs h0' hsorted
  rw [run_velocity_count_link evs hnee]
  rw [show (runState evs).txn.length = ((runState evs).txn.map Prod.fst).length from
    (List.length_map _ _).symm]
  rw [← List.toFinset_card_of_nodup inv.txn_nodup]
  have hset : ((runState evs).txn.map Prod.fst).toFinset = {now} := by
    ext u
    simp only [List.mem_toFinset, Finset.mem_singleton]
    rw [inv.txn_mem u, hmapfst,
      getLastD_replicate amts.length now 0 (by simpa using hne)]
    simp only [List.mem_replicate]
    constructor
    · rintro ⟨⟨_, rfl⟩, _⟩
      rfl
    · rintro rfl
      exact ⟨⟨by simpa using hne, rfl⟩, by omega⟩
  rw [hset]
  simp

/-- Witness for the amended C2: a burst of two same-second calls returns
count 1. -/
theorem same_second_calls_collapse_to_one_witness :
    (run_velocity ([(10 : ℚ), 20].map (fun q => ((1000 : Int), q)))).2.1 = 1 :=
  same_second_calls_collapse_to_one [10, 20] 1000 (by norm_num) (by simp)

/-- C2 (counterexample): two update_velocity calls within the same second
(timestamp 1000) yield a count of 1 after the second call, refuting the claim
that the count after the k-th same-second call is at least k: the timestamp
acts as the sorted-set member and therefore deduplicates the events. -/
theorem same_second_calls_deduplicated :
    (run_velocity [((1000 : Int), (10 : ℚ)), (1000, 20)]).2.1 = 1
    ∧ ¬ 2 ≤ (run_velocity [((1000 : Int), (10 : ℚ)), (1000, 20)]).2.1 := by
  refine ⟨rfl, ?_⟩
  rw [show (run_velocity [((1000 : Int), (10 : ℚ)), (1000, 20)]).2.1 = 1 from rfl]
  omega

end FraudApi
